import Mathlib

/-!
Verification of the `active-storage` crate's core: the in-memory driver
(`src/drivers/inmem.rs`), the error taxonomy (`src/errors.rs`), the `Store`
text projection (`src/store.rs`, `src/contents.rs`) and the multi-store
mirroring engine (`src/multi_store.rs`).

Rust `BTreeMap`/`HashMap` values are modelled as association lists with
unique keys; `BTreeMap` iteration order is modelled explicitly where it is
observable (sorted insert for the mirror target map).
-/

instance instDecEqExcept {ε α : Type} [DecidableEq ε] [DecidableEq α] :
    DecidableEq (Except ε α)
  | .ok a, .ok b => decidable_of_iff (a = b) (by simp)
  | .ok _, .error _ => isFalse (by intro h; cases h)
  | .error _, .ok _ => isFalse (by intro h; cases h)
  | .error e, .error f => decidable_of_iff (e = f) (by simp)

namespace ActiveStorage

/-- Lexicographic order on char lists by Unicode scalar value; together with
`stringLt` this models the `Ord` instance of Rust `&str` (byte-wise
lexicographic on UTF-8, which coincides with scalar-wise lexicographic). -/
def charListLt : List Char → List Char → Bool
  | [], [] => false
  | [], _ :: _ => true
  | _ :: _, [] => false
  | a :: as, b :: bs =>
    if a.toNat < b.toNat then true
    else if b.toNat < a.toNat then false
    else charListLt as bs

/-- The `&str` ordering used by `BTreeMap<&str, _>` keys. -/
def stringLt (a b : String) : Bool := charListLt a.data b.data

/-- Lookup in an association list, as `Map::get`: the value of the first
entry with the given key. -/
def lookupKV [DecidableEq α] (m : List (α × β)) (k : α) : Option β :=
  (m.find? (fun e => decide (e.1 = k))).map (fun e => e.2)

/-- `Map::contains_key`. -/
def containsKV [DecidableEq α] (m : List (α × β)) (k : α) : Bool :=
  (lookupKV m k).isSome

/-- `Map::insert`: replace the binding of `k`, keeping keys unique. -/
def insertKV [DecidableEq α] (k : α) (v : β) (m : List (α × β)) : List (α × β) :=
  (k, v) :: m.filter (fun e => decide (e.1 ≠ k))

/-- `Map::remove`ing a key. -/
def removeKV [DecidableEq α] (k : α) (m : List (α × β)) : List (α × β) :=
  m.filter (fun e => decide (e.1 ≠ k))

/-- Rust `std::path::Path`, modelled as its list of components
(`Path::components`); an absolute path carries Rust's `RootDir` component as
the leading component `"/"`. -/
abbrev RPath := List String

/-- `Path::parent`: `none` exactly for the empty path and the root path,
otherwise the path with the last component dropped. -/
def RPath.parent (p : RPath) : Option RPath :=
  if p = [] ∨ p = ["/"] then none else some p.dropLast

/-- `Path::starts_with`: component-wise prefix. -/
def RPath.startsWith (p base : RPath) : Bool :=
  base.isPrefixOf p

/-- `DriverError` from `src/errors.rs`: the backend-independent error
taxonomy. The opaque boxed payload of `Any` is modelled as its message. -/
inductive DriverError where
  | ResourceNotFound
  | InvalidPath
  | DecodeError
  | Network
  | Any (detail : String)
deriving DecidableEq

/-- The name of a `DriverError`'s variant (its kind). -/
def DriverError.kindName : DriverError → String
  | .ResourceNotFound => "ResourceNotFound"
  | .InvalidPath => "InvalidPath"
  | .DecodeError => "DecodeError"
  | .Network => "Network"
  | .Any _ => "Any"

/-- The variant names of `DriverError` as declared in `src/errors.rs`. -/
def driverErrorKinds : List String :=
  ["ResourceNotFound", "InvalidPath", "DecodeError", "Network", "Any"]

/-- `MirrorError` from `src/errors.rs`. The `BTreeMap<String, DriverError>`
payload is modelled as the list of its entries in key order. -/
inductive MirrorError where
  | MirrorFailedOnStores (errors : List (String × DriverError))
  | MirrorFailedOnStore (name : String) (error : DriverError)
deriving DecidableEq

/-- The `File` record stored by the in-memory driver
(`src/drivers/inmem.rs`); `SystemTime` is modelled as a `Nat` tick. -/
structure MemFile where
  content : List Nat
  lastModified : Nat
deriving DecidableEq

/-- `InMemoryDriver` state (`src/drivers/inmem.rs`): the `files` map from
path to file, and the `directory` map from a parent directory to the list of
file paths written under it. -/
structure InMemoryDriver where
  files : List (RPath × MemFile)
  directory : List (RPath × List RPath)
deriving DecidableEq

/-- `InMemoryDriver::default()`. -/
def inmemEmpty : InMemoryDriver := ⟨[], []⟩

/-- `InMemoryDriver::read`. -/
def InMemoryDriver.read (s : InMemoryDriver) (path : RPath) :
    Except DriverError (List Nat) :=
  match lookupKV s.files path with
  | none => .error .ResourceNotFound
  | some f => .ok f.content

/-- `InMemoryDriver::file_exists`. -/
def InMemoryDriver.file_exists (s : InMemoryDriver) (path : RPath) :
    Except DriverError Bool :=
  .ok (containsKV s.files path)

/-- `InMemoryDriver::write`: insert the file, then (when the path has a
parent) push the path onto the parent's `directory` entry. `now` models
`SystemTime::now()`. -/
def InMemoryDriver.write (s : InMemoryDriver) (path : RPath)
    (content : List Nat) (now : Nat) : Except DriverError InMemoryDriver :=
  let files := insertKV path ⟨content, now⟩ s.files
  let directory :=
    match path.parent with
    | some parent =>
        insertKV parent (((lookupKV s.directory parent).getD []) ++ [path])
          s.directory
    | none => s.directory
  .ok ⟨files, directory⟩

/-- `InMemoryDriver::delete`. The source calls `path.parent().unwrap()`
after removing the file; a panic of that `unwrap` is modelled as `none`. -/
def InMemoryDriver.delete (s : InMemoryDriver) (path : RPath) :
    Option (Except DriverError InMemoryDriver) :=
  if containsKV s.files path = false then
    some (.error .ResourceNotFound)
  else
    match path.parent with
    | none => none
    | some parent =>
        some (.ok ⟨removeKV path s.files,
          insertKV parent
            (((lookupKV s.directory parent).getD []).filter
              (fun fp => decide (fp ≠ path)))
            s.directory⟩)

/-- `InMemoryDriver::delete_directory`: fails with `ResourceNotFound` when
`path` is not a key of the `directory` map, otherwise retains only the
entries of both maps whose key does not start with `path`. -/
def InMemoryDriver.delete_directory (s : InMemoryDriver) (path : RPath) :
    Except DriverError InMemoryDriver :=
  if containsKV s.directory path = false then
    .error .ResourceNotFound
  else
    .ok ⟨s.files.filter (fun e => !(RPath.startsWith e.1 path)),
      s.directory.filter (fun e => !(RPath.startsWith e.1 path))⟩

/-- Whether a byte is a UTF-8 continuation byte (`0x80 ..= 0xBF`). -/
def utf8Cont (b : Nat) : Bool :=
  0x80 ≤ b && b ≤ 0xBF

/-- Models Rust std's `String::from_utf8` (used by the
`TryFrom<Contents> for String` impl in `src/contents.rs`): decodes a byte
list into its Unicode scalar values, or `none` when the bytes are not
valid UTF-8. Follows the UTF-8 validation table of `core::str`. -/
def utf8Decode : List Nat → Option (List Nat)
  | [] => some []
  | b0 :: rest =>
    if b0 < 0x80 then
      (utf8Decode rest).map (fun cps => b0 :: cps)
    else
      match rest with
      | [] => none
      | b1 :: rest1 =>
        if 0xC2 ≤ b0 && b0 ≤ 0xDF then
          if utf8Cont b1 then
            (utf8Decode rest1).map
              (fun cps => ((b0 - 0xC0) * 0x40 + (b1 - 0x80)) :: cps)
          else none
        else
          match rest1 with
          | [] => none
          | b2 :: rest2 =>
            if 0xE0 ≤ b0 && b0 ≤ 0xEF then
              if (if b0 = 0xE0 then 0xA0 ≤ b1 && b1 ≤ 0xBF
                  else if b0 = 0xED then 0x80 ≤ b1 && b1 ≤ 0x9F
                  else utf8Cont b1) && utf8Cont b2 then
                (utf8Decode rest2).map
                  (fun cps =>
                    ((b0 - 0xE0) * 0x1000 + (b1 - 0x80) * 0x40 + (b2 - 0x80))
                      :: cps)
              else none
            else
              match rest2 with
              | [] => none
              | b3 :: rest3 =>
                if 0xF0 ≤ b0 && b0 ≤ 0xF4 then
                  if (if b0 = 0xF0 then 0x90 ≤ b1 && b1 ≤ 0xBF
                      else if b0 = 0xF4 then 0x80 ≤ b1 && b1 ≤ 0x8F
                      else utf8Cont b1) && utf8Cont b2 && utf8Cont b3 then
                    (utf8Decode rest3).map
                      (fun cps =>
                        ((b0 - 0xF0) * 0x40000 + (b1 - 0x80) * 0x1000
                          + (b2 - 0x80) * 0x40 + (b3 - 0x80)) :: cps)
                  else none
                else none

/-- `Store::read::<String>` over the in-memory driver (`src/store.rs` plus
`TryFrom<Contents> for String` in `src/contents.rs`): driver read, then the
UTF-8 projection, any decode failure mapped to `DriverError::DecodeError`.
The resulting Rust `String` is represented by its scalar-value sequence. -/
def storeReadString (s : InMemoryDriver) (path : RPath) :
    Except DriverError (List Nat) :=
  match s.read path with
  | .error e => .error e
  | .ok bytes =>
    match utf8Decode bytes with
    | some cps => .ok cps
    | none => .error .DecodeError

/-- `Policy` from `src/multi_store.rs`. -/
inductive Policy where
  | ContinueOnFailure
  | StopOnFailure
deriving DecidableEq

/-- `MultiStore` from `src/multi_store.rs`, polymorphic in the store type
`σ` (the source holds `Store` trait objects). Both `HashMap` fields are
association lists with unique keys. -/
structure MultiStore (σ : Type) where
  primary : σ
  mirrors : List (String × List String)
  mirrors_policy : Policy
  stores : List (String × σ)

/-- `MultiStore::new`: empty registry, empty mirror groups, policy
`ContinueOnFailure`. -/
def MultiStore.new (primary : σ) : MultiStore σ :=
  ⟨primary, [], .ContinueOnFailure, []⟩

/-- `MultiStore::add_stores`: merge the given `(name, store)` pairs into the
registry, overwriting on name collision. -/
def MultiStore.add_stores (m : MultiStore σ) (pairs : List (String × σ)) :
    MultiStore σ :=
  { m with stores := pairs.foldl (fun acc e => insertKV e.1 e.2 acc) m.stores }

/-- `BTreeMap::insert` on a list kept sorted by key in ascending `String`
order (overwrites an equal key). -/
def btreeInsert (k : String) (v : σ) : List (String × σ) → List (String × σ)
  | [] => [(k, v)]
  | (k', v') :: rest =>
    if stringLt k k' then (k, v) :: (k', v') :: rest
    else if k = k' then (k, v) :: rest
    else (k', v') :: btreeInsert k v rest

/-- `MultiStore::mirror_stores_from_primary`: start a `BTreeMap` from
`("primary", primary)` and insert every registered `(name, store)` pair,
yielding the mirror's target collection in ascending key order. -/
def mirror_stores_from_primary (m : MultiStore σ) : List (String × σ) :=
  m.stores.foldl (fun acc e => btreeInsert e.1 e.2 acc) [("primary", m.primary)]

/-- `MultiStore::add_mirrors`: collect the referenced names missing from the
store registry; if any, fail with one message listing them all, leaving the
state unchanged; otherwise bind the group name to the membership list. -/
def add_mirrors (m : MultiStore σ) (name : String) (stores_names : List String) :
    MultiStore σ × Except String Unit :=
  let unknown_stores :=
    stores_names.filter (fun s => !(containsKV m.stores s))
  if unknown_stores.isEmpty = false then
    (m, .error ("the stores: " ++ String.intercalate "," unknown_stores
      ++ " not defined"))
  else
    ({ m with mirrors := insertKV name stores_names m.mirrors }, .ok ())

/-- `Mirror::handle_error_policy` from `src/multi_store.rs`: under
`ContinueOnFailure` record `(name, error)` into the accumulator and keep
going; under `StopOnFailure` abort with a single-store failure. The
`BTreeMap` accumulator is a list: keys arrive in ascending target order, so
insertion is appending. -/
def handle_error_policy (policy : Policy) (store_name : String)
    (error : DriverError) (error_stores : List (String × DriverError)) :
    Except MirrorError (List (String × DriverError)) :=
  match policy with
  | .ContinueOnFailure => .ok (error_stores ++ [(store_name, error)])
  | .StopOnFailure => .error (.MirrorFailedOnStore store_name error)

/-- The common fan-out loop of `Mirror::write`, `Mirror::delete` and
`Mirror::delete_directory` (`src/multi_store.rs`): walk the targets in
order, apply the store operation `op`, route each failure through
`handle_error_policy` (whose error aborts, as the source's `?`), and finish
with `Ok` iff the accumulator is empty. Returns the state of every target
after the call alongside the result; a target not reached keeps its state. -/
def mirrorRun (policy : Policy) (op : σ → Except DriverError σ) :
    List (String × σ) → List (String × DriverError) →
    List (String × σ) × Except MirrorError Unit
  | [], error_stores =>
    ([], if error_stores.isEmpty then .ok () else
      .error (.MirrorFailedOnStores error_stores))
  | (name, st) :: rest, error_stores =>
    match op st with
    | .ok st' =>
        let r := mirrorRun policy op rest error_stores
        ((name, st') :: r.1, r.2)
    | .error e =>
        match handle_error_policy policy name e error_stores with
        | .ok error_stores' =>
            let r := mirrorRun policy op rest error_stores'
            ((name, st) :: r.1, r.2)
        | .error me => ((name, st) :: rest, .error me)

/-- `Mirror::write` over targets of store type `σ`, with `writeOp` the
store-level write already applied to the path and content. -/
def Mirror.write (policy : Policy) (writeOp : σ → Except DriverError σ)
    (stores : List (String × σ)) : List (String × σ) × Except MirrorError Unit :=
  mirrorRun policy writeOp stores []

/-! ### Association-list lemmas -/

theorem find?_filter_of_imp (l : List γ) (p q : γ → Bool)
    (h : ∀ e, p e = true → q e = true) :
    (l.filter q).find? p = l.find? p := by
  induction l with
  | nil => rfl
  | cons a t ih =>
    cases hpa : p a with
    | true =>
      have hqa : q a = true := h a hpa
      simp [List.filter_cons, hqa, List.find?_cons, hpa]
    | false =>
      cases hqa : q a with
      | true => simp [List.filter_cons, hqa, List.find?_cons, hpa, ih]
      | false => simp [List.filter_cons, hqa, List.find?_cons, hpa, ih]

theorem find?_filter_none (l : List γ) (p q : γ → Bool)
    (h : ∀ e, p e = true → q e = false) :
    (l.filter q).find? p = none := by
  induction l with
  | nil => rfl
  | cons a t ih =>
    cases hpa : p a with
    | true =>
      have hqa : q a = false := h a hpa
      simp [List.filter_cons, hqa, ih]
    | false =>
      cases hqa : q a with
      | true => simp [List.filter_cons, hqa, List.find?_cons, hpa, ih]
      | false => simp [List.filter_cons, hqa, ih]

theorem lookupKV_insert_self [DecidableEq α] (m : List (α × β)) (k : α)
    (v : β) : lookupKV (insertKV k v m) k = some v := by
  simp [lookupKV, insertKV, List.find?_cons]

theorem lookupKV_insert_ne [DecidableEq α] (m : List (α × β)) (k k' : α)
    (v : β) (h : k' ≠ k) : lookupKV (insertKV k v m) k' = lookupKV m k' := by
  simp only [lookupKV, insertKV]
  rw [List.find?_cons_of_neg _ (by simp [Ne.symm h]),
    find?_filter_of_imp m (fun e => decide (e.1 = k')) (fun e => decide (e.1 ≠ k))]
  intro e he
  simp only [decide_eq_true_eq] at he ⊢
  rw [he]
  exact h

theorem lookupKV_filter_not_startsWith (files : List (RPath × γ))
    (p q : RPath) :
    lookupKV (files.filter (fun e => !(RPath.startsWith e.1 p))) q =
      if RPath.startsWith q p then none else lookupKV files q := by
  cases hq : RPath.startsWith q p with
  | true =>
    simp only [lookupKV, if_pos rfl]
    rw [find?_filter_none files (fun e => decide (e.1 = q))
      (fun e => !(RPath.startsWith e.1 p))]
    · rfl
    · intro e he
      simp only [decide_eq_true_eq] at he
      simp [he, hq]
  | false =>
    simp only [lookupKV]
    rw [if_neg (by simp [hq]),
      find?_filter_of_imp files (fun e => decide (e.1 = q))
        (fun e => !(RPath.startsWith e.1 p))]
    intro e he
    simp only [decide_eq_true_eq] at he
    simp [he, hq]

/-! ### Claim theorems: the in-memory driver -/

/-- The in-memory state after `write("/", [42])` on an empty driver: the
root path stored as a file, with no `directory` entry (the root has no
parent). -/
def rootOnlyState : InMemoryDriver := ⟨[(["/"], ⟨[42], 0⟩)], []⟩

/-- C10: `InMemoryDriver::delete` panics (modelled as `none`) instead of
returning a result when the deleted path has no parent: after storing the
root path `"/"`, `delete("/")` finds and removes the file but then hits
`path.parent().unwrap()` on `None`. -/
theorem inmem_delete_panics_on_parentless_path :
    inmemEmpty.write ["/"] [42] 0 = .ok rootOnlyState ∧
    containsKV rootOnlyState.files ["/"] = true ∧
    rootOnlyState.delete ["/"] = none := by
  decide

/-- C4: the driver error taxonomy declared in `src/errors.rs` consists of
exactly the kinds ResourceNotFound, InvalidPath, DecodeError, Network and
Any — there is no `AuthenticationFailed` kind, even though
`src/drivers/azure.rs` constructs `DriverError::AuthenticationFailed` and
the spec lists it. -/
theorem driverError_taxonomy_lacks_authentication_failed :
    (∀ e : DriverError, e.kindName ∈ driverErrorKinds) ∧
    "AuthenticationFailed" ∉ driverErrorKinds := by
  constructor
  · intro e
    cases e <;> simp [DriverError.kindName, driverErrorKinds]
  · decide

/-- The in-memory state after `write("foo/bar/1.txt", [97])` on an empty
driver: one stored file, and one `directory` entry keyed by the file's
immediate parent `foo/bar` (not by `foo`). -/
def nestedFileState : InMemoryDriver :=
  ⟨[(["foo", "bar", "1.txt"], ⟨[97], 0⟩)],
    [(["foo", "bar"], [["foo", "bar", "1.txt"]])]⟩

/-- C5 counterexample: after writing `foo/bar/1.txt`, the object
`foo/bar/1.txt` is prefixed by `foo`, yet `delete_directory("foo")` fails
with `ResourceNotFound`, because the code tests `directory.contains_key(p)`
(exact key) rather than whether any stored object matches the prefix. -/
theorem delete_directory_not_found_despite_matching_object :
    inmemEmpty.write ["foo", "bar", "1.txt"] [97] 0 = .ok nestedFileState ∧
    nestedFileState.files.any
      (fun e => RPath.startsWith e.1 ["foo"]) = true ∧
    nestedFileState.delete_directory ["foo"] = .error .ResourceNotFound := by
  decide

/-- C5 (amended): `delete_directory(p)` fails with `ResourceNotFound` iff
`p` is not a key of the driver's `directory` index (the parent-directory →
children map maintained by `write`); on success it removes exactly the
stored objects whose path is prefixed by `p`, leaving every other stored
object unchanged. -/
theorem delete_directory_prefix_removal (s : InMemoryDriver) (p q : RPath) :
    (containsKV s.directory p = false →
      s.delete_directory p = .error .ResourceNotFound) ∧
    (containsKV s.directory p = true →
      (s.delete_directory p).isOk = true) ∧
    (∀ s', s.delete_directory p = .ok s' →
      lookupKV s'.files q =
        if RPath.startsWith q p then none else lookupKV s.files q) := by
  refine ⟨fun h => ?_, fun h => ?_, fun s' h => ?_⟩
  · simp [InMemoryDriver.delete_directory, h]
  · simp [InMemoryDriver.delete_directory, h, Except.isOk, Except.toBool]
  · rcases hc : containsKV s.directory p with _ | _
    · simp [InMemoryDriver.delete_directory, hc] at h
    · simp only [InMemoryDriver.delete_directory, hc] at h
      rw [if_neg (by simp)] at h
      injection h with h
      subst h
      exact lookupKV_filter_not_startsWith s.files p q

/-- C5 amended-claim witness: on the concrete state holding only
`foo/bar/1.txt`, deleting the directory `foo/bar` succeeds and removes the
file. -/
theorem delete_directory_prefix_removal_witness :
    (nestedFileState.delete_directory ["foo", "bar"]).isOk = true ∧
    (∀ s', nestedFileState.delete_directory ["foo", "bar"] = .ok s' →
      lookupKV s'.files ["foo", "bar", "1.txt"] =
        if RPath.startsWith ["foo", "bar", "1.txt"] ["foo", "bar"] then none
        else lookupKV nestedFileState.files ["foo", "bar", "1.txt"]) :=
  ⟨(delete_directory_prefix_removal nestedFileState ["foo", "bar"]
      ["foo", "bar", "1.txt"]).2.1 (by decide),
    (delete_directory_prefix_removal nestedFileState ["foo", "bar"]
      ["foo", "bar", "1.txt"]).2.2⟩

/-- `InMemoryDriver::write` always succeeds, with this explicit
post-state. -/
theorem write_eq_ok (s : InMemoryDriver) (p : RPath) (c : List Nat)
    (t : Nat) :
    s.write p c t = .ok ⟨insertKV p ⟨c, t⟩ s.files,
      match p.parent with
      | some parent => insertKV parent
          (((lookupKV s.directory parent).getD []) ++ [p]) s.directory
      | none => s.directory⟩ := rfl

/-- C7: writing the same `(path, bytes)` twice is idempotent for the
in-memory driver: after either write, `file_exists(path)` is `true` and
`read(path)` returns the bytes. -/
theorem store_write_idempotent (s : InMemoryDriver) (p : RPath)
    (c : List Nat) (t1 t2 : Nat) :
    ∀ s1, s.write p c t1 = .ok s1 →
      s1.file_exists p = .ok true ∧ s1.read p = .ok c ∧
      ∀ s2, s1.write p c t2 = .ok s2 →
        s2.file_exists p = .ok true ∧ s2.read p = .ok c := by
  have key : ∀ (s' : InMemoryDriver) (t : Nat) (s'' : InMemoryDriver),
      s'.write p c t = .ok s'' →
      s''.file_exists p = .ok true ∧ s''.read p = .ok c := by
    intro s' t s'' h
    rw [write_eq_ok] at h
    injection h with h
    subst h
    constructor
    · simp [InMemoryDriver.file_exists, containsKV, lookupKV_insert_self]
    · simp [InMemoryDriver.read, lookupKV_insert_self]
  intro s1 h1
  exact ⟨(key s t1 s1 h1).1, (key s t1 s1 h1).2,
    fun s2 h2 => key s1 t2 s2 h2⟩

/-- C7 witness: concrete double write of `[1]` at path `a`. -/
theorem store_write_idempotent_witness :
    InMemoryDriver.file_exists ⟨[(["a"], ⟨[1], 0⟩)], [([], [["a"]])]⟩ ["a"]
      = .ok true :=
  (store_write_idempotent inmemEmpty ["a"] [1] 0 1
    ⟨[(["a"], ⟨[1], 0⟩)], [([], [["a"]])]⟩ (by decide)).1

/-- C8: `write(p, b)` followed by `read::<String>(p)` yields the UTF-8
decoding of `b` when `b` is valid UTF-8, and `DecodeError` otherwise. -/
theorem store_read_text_round_trip (s : InMemoryDriver) (p : RPath)
    (c : List Nat) (t : Nat) :
    ∀ s1, s.write p c t = .ok s1 →
      storeReadString s1 p =
        match utf8Decode c with
        | some cps => .ok cps
        | none => .error .DecodeError := by
  intro s1 h
  rw [write_eq_ok] at h
  injection h with h
  subst h
  simp only [storeReadString, InMemoryDriver.read, lookupKV_insert_self]

/-- The bytes of `b"content"`. -/
def contentBytes : List Nat := [99, 111, 110, 116, 101, 110, 116]

/-- C8 witness: writing `b"content"` reads back as the string `"content"`
(scalar values), and writing the invalid UTF-8 byte `0xFF` yields
`DecodeError`. -/
theorem store_read_text_round_trip_witness :
    storeReadString ⟨[(["p.txt"], ⟨contentBytes, 0⟩)], [([], [["p.txt"]])]⟩
      ["p.txt"] = .ok contentBytes ∧
    storeReadString ⟨[(["p.txt"], ⟨[255], 0⟩)], [([], [["p.txt"]])]⟩
      ["p.txt"] = .error .DecodeError :=
  ⟨(store_read_text_round_trip inmemEmpty ["p.txt"] contentBytes 0
      ⟨[(["p.txt"], ⟨contentBytes, 0⟩)], [([], [["p.txt"]])]⟩
      (by decide)).trans (by decide),
    (store_read_text_round_trip inmemEmpty ["p.txt"] [255] 0
      ⟨[(["p.txt"], ⟨[255], 0⟩)], [([], [["p.txt"]])]⟩
      (by decide)).trans (by decide)⟩

/-! ### Claim theorems: the Mirror fan-out -/

/-- Specification-side: the outcome of applying the store operation to every
target (a failing target keeps its state). -/
def applyOp (op : σ → Except DriverError σ) (stores : List (String × σ)) :
    List (String × σ) :=
  stores.map (fun e => (e.1,
    match op e.2 with
    | .ok st' => st'
    | .error _ => e.2))

/-- Specification-side: the failing targets paired with their errors, in
target order. -/
def opFailures (op : σ → Except DriverError σ) (stores : List (String × σ)) :
    List (String × DriverError) :=
  stores.filterMap (fun e =>
    match op e.2 with
    | .ok _ => none
    | .error er => some (e.1, er))

theorem mirrorRun_continue_acc (op : σ → Except DriverError σ)
    (stores : List (String × σ)) (acc : List (String × DriverError)) :
    mirrorRun .ContinueOnFailure op stores acc =
      (applyOp op stores,
        if acc ++ opFailures op stores = [] then .ok ()
        else .error (.MirrorFailedOnStores (acc ++ opFailures op stores))) := by
  induction stores generalizing acc with
  | nil => simp [mirrorRun, applyOp, opFailures, List.isEmpty_iff]
  | cons hd tl ih =>
    obtain ⟨nm, st⟩ := hd
    cases hop : op st with
    | ok st' =>
      simp only [mirrorRun, hop, ih, applyOp, opFailures,
        List.filterMap_cons, List.map_cons]
    | error e =>
      simp only [mirrorRun, hop, handle_error_policy, ih, applyOp,
        opFailures, List.filterMap_cons, List.map_cons]
      simp [List.append_assoc]

/-- C1: under `ContinueOnFailure`, a fan-out applies the operation to every
target even after earlier failures (each healthy target ends in its written
state, each failing target keeps its state), succeeds iff no target fails,
and otherwise fails with exactly one `(name, error)` entry per failing
target. Instantiating `op` gives `Mirror::write`, `Mirror::delete` and
`Mirror::delete_directory`. -/
theorem continue_on_failure_fanout (op : σ → Except DriverError σ)
    (stores : List (String × σ)) :
    mirrorRun .ContinueOnFailure op stores [] =
      (applyOp op stores,
        if opFailures op stores = [] then .ok ()
        else .error (.MirrorFailedOnStores (opFailures op stores))) := by
  simpa using mirrorRun_continue_acc op stores []

/-- C2: under `StopOnFailure`, if every target succeeds the fan-out applies
the operation to all of them and succeeds; and when the targets are
`pre ++ (nm, st) :: post` with every target of `pre` succeeding and `st`
failing with `e`, the fan-out stops at `(nm, st)`: it fails with the single
pair `(nm, e)`, and the failing target and every target after it keep their
state (they are never invoked). -/
theorem stop_on_failure_fanout (op : σ → Except DriverError σ)
    (stores pre post : List (String × σ)) (nm : String) (st : σ)
    (e : DriverError) :
    ((∀ q ∈ stores, (op q.2).isOk = true) →
      mirrorRun .StopOnFailure op stores [] = (applyOp op stores, .ok ())) ∧
    ((∀ q ∈ pre, (op q.2).isOk = true) → op st = .error e →
      mirrorRun .StopOnFailure op (pre ++ (nm, st) :: post) [] =
        (applyOp op pre ++ (nm, st) :: post,
          .error (.MirrorFailedOnStore nm e))) := by
  constructor
  · intro hall
    induction stores with
    | nil => simp [mirrorRun, applyOp]
    | cons hd tl ih =>
      obtain ⟨nm', st'⟩ := hd
      have hok : (op st').isOk = true := hall _ (List.mem_cons_self _ _)
      cases hop : op st' with
      | error e' => rw [hop] at hok; simp [Except.isOk, Except.toBool] at hok
      | ok st'' =>
        have := ih (fun q hq => hall q (List.mem_cons_of_mem _ hq))
        simp [mirrorRun, hop, this, applyOp]
  · intro hpre hfail
    induction pre with
    | nil => simp [mirrorRun, hfail, handle_error_policy, applyOp]
    | cons hd tl ih =>
      obtain ⟨nm', st'⟩ := hd
      have hok : (op st').isOk = true := hpre _ (List.mem_cons_self _ _)
      cases hop : op st' with
      | error e' => rw [hop] at hok; simp [Except.isOk, Except.toBool] at hok
      | ok st'' =>
        have := ih (fun q hq => hpre q (List.mem_cons_of_mem _ hq))
        simp [mirrorRun, hop, this, applyOp]

/-- C2 witness: targets `"a"` (failing) and `"z"` (healthy), as in the
spec's example: the fan-out stops at `"a"` with a single failure and `"z"`
keeps its state; and a fan-out over only healthy targets succeeds. -/
theorem stop_on_failure_fanout_witness :
    mirrorRun .StopOnFailure
        (fun b => if b then .ok b else .error .Network)
        [("a", false), ("z", true)] [] =
      ([("a", false), ("z", true)],
        .error (.MirrorFailedOnStore "a" .Network)) ∧
    mirrorRun .StopOnFailure
        (fun b => if b then .ok b else .error .Network)
        [("z", true)] [] = ([("z", true)], .ok ()) := by
  constructor
  · have h := (stop_on_failure_fanout
      (fun b => if b then .ok b else .error .Network)
      [] [] [("z", true)] "a" false .Network).2
      (by intro q hq; cases hq) rfl
    simpa [applyOp] using h
  · have h := (stop_on_failure_fanout
      (fun b => if b then .ok b else .error .Network)
      [("z", true)] [] [] "a" false .Network).1
      (by intro q hq; cases hq with
        | head => rfl
        | tail _ hq => cases hq)
    simpa [applyOp] using h

/-! ### Claim theorems: MultiStore group registration -/

/-- C6: `add_mirrors(group, names)` fails iff at least one of `names` is
unregistered, the failure message lists all unregistered names, and on
success the membership list is stored under `group` (overwriting any prior
definition) with every other group binding unchanged. -/
theorem add_mirrors_validation (m : MultiStore σ) (gname : String)
    (ns : List String) :
    ((add_mirrors m gname ns).2.isOk = true ↔
      ∀ s ∈ ns, containsKV m.stores s = true) ∧
    (∀ msg, (add_mirrors m gname ns).2 = .error msg →
      msg = "the stores: "
        ++ String.intercalate ","
          (ns.filter (fun s => !(containsKV m.stores s)))
        ++ " not defined") ∧
    ((add_mirrors m gname ns).2.isOk = true →
      lookupKV (add_mirrors m gname ns).1.mirrors gname = some ns ∧
      ∀ g, g ≠ gname →
        lookupKV (add_mirrors m gname ns).1.mirrors g =
          lookupKV m.mirrors g) := by
  by_cases hall : ∀ s ∈ ns, containsKV m.stores s = true
  · have hnil : ns.filter (fun s => !(containsKV m.stores s)) = [] := by
      rw [List.filter_eq_nil_iff]
      intro s hs
      simp [hall s hs]
    refine ⟨?_, ?_, ?_⟩
    · rw [iff_true_intro hall, iff_true]
      simp [add_mirrors, hnil, Except.isOk, Except.toBool]
    · intro msg hmsg
      simp [add_mirrors, hnil] at hmsg
    · intro _
      constructor
      · simp [add_mirrors, hnil, lookupKV_insert_self]
      · intro g hg
        simp only [add_mirrors, hnil]
        simp only [List.isEmpty_nil]
        exact lookupKV_insert_ne m.mirrors gname g ns hg
  · have hne : ns.filter (fun s => !(containsKV m.stores s)) ≠ [] := by
      rw [Ne, List.filter_eq_nil_iff]
      push_neg at hall
      obtain ⟨s, hs, hcs⟩ := hall
      intro hcon
      exact hcon s hs (by simp [hcs])
    refine ⟨?_, ?_, ?_⟩
    · rw [iff_false_intro hall]
      simp only [add_mirrors]
      rw [if_pos (by simp [List.isEmpty_iff, hne])]
      simp [Except.isOk, Except.toBool]
    · intro msg hmsg
      simp only [add_mirrors] at hmsg
      rw [if_pos (by simp [List.isEmpty_iff, hne])] at hmsg
      injection hmsg with hmsg
      exact hmsg.symm
    · intro hok
      simp only [add_mirrors] at hok
      rw [if_pos (by simp [List.isEmpty_iff, hne])] at hok
      simp [Except.isOk, Except.toBool] at hok

/-- C6 witness: with registry `{bar-store, baz-store}`, adding a group over
`[baz-store, un-existing 1, un-existing 2]` fails with a message listing
both unknown names; adding one over `[bar-store, baz-store]` succeeds and
binds the group. -/
theorem add_mirrors_validation_witness :
    ("the stores: un-existing 1,un-existing 2 not defined"
      = "the stores: "
        ++ String.intercalate ","
          ((["baz-store", "un-existing 1", "un-existing 2"]).filter
            (fun s => !(containsKV
              (MultiStore.stores
                ⟨0, [], .ContinueOnFailure,
                  [("bar-store", 1), ("baz-store", 2)]⟩) s)))
        ++ " not defined") ∧
    lookupKV (MultiStore.mirrors (add_mirrors
        (⟨0, [], .ContinueOnFailure,
          [("bar-store", 1), ("baz-store", 2)]⟩ : MultiStore Nat)
        "mirror-bar-and-baz" ["bar-store", "baz-store"]).1)
      "mirror-bar-and-baz" = some ["bar-store", "baz-store"] :=
  ⟨(add_mirrors_validation
      (⟨0, [], .ContinueOnFailure,
        [("bar-store", 1), ("baz-store", 2)]⟩ : MultiStore Nat)
      "bar" ["baz-store", "un-existing 1", "un-existing 2"]).2.1
      _ (by decide),
    ((add_mirrors_validation
      (⟨0, [], .ContinueOnFailure,
        [("bar-store", 1), ("baz-store", 2)]⟩ : MultiStore Nat)
      "mirror-bar-and-baz" ["bar-store", "baz-store"]).2.2
      (by decide)).1⟩

/-- C9: when `add_mirrors` fails because some names are unregistered, the
`MultiStore` is left completely unchanged (validation happens before any
mutation). -/
theorem add_mirrors_error_state_unchanged (m : MultiStore σ)
    (gname : String) (ns : List String) (msg : String)
    (h : (add_mirrors m gname ns).2 = .error msg) :
    (add_mirrors m gname ns).1 = m := by
  by_cases hcond :
      (ns.filter (fun s => !(containsKV m.stores s))).isEmpty = false
  · simp [add_mirrors, hcond]
  · simp only [add_mirrors, hcond] at h
    rw [if_neg (by simp [hcond])] at h
    cases h

/-- C9 witness: a failing `add_mirrors` on a concrete registry leaves the
`MultiStore` unchanged. -/
theorem add_mirrors_error_state_unchanged_witness :
    (add_mirrors (MultiStore.new (0 : Nat)) "g" ["x"]).1
      = MultiStore.new (0 : Nat) :=
  add_mirrors_error_state_unchanged (MultiStore.new (0 : Nat)) "g" ["x"]
    "the stores: x not defined" (by decide)

/-! ### String-order lemmas for the sorted target map -/

theorem charListLt_irrefl : ∀ l : List Char, charListLt l l = false
  | [] => rfl
  | a :: as => by simp [charListLt, charListLt_irrefl as]

theorem stringLt_irrefl (a : String) : stringLt a a = false :=
  charListLt_irrefl a.data

theorem charListLt_trans {a : List Char} : ∀ {b c : List Char},
    charListLt a b = true → charListLt b c = true →
    charListLt a c = true := by
  induction a with
  | nil =>
    intro b c hab hbc
    cases b with
    | nil => cases hab
    | cons y bs =>
      cases c with
      | nil => cases hbc
      | cons z cs => rfl
  | cons x as ih =>
    intro b c hab hbc
    cases b with
    | nil => cases hab
    | cons y bs =>
      cases c with
      | nil => cases hbc
      | cons z cs =>
        simp only [charListLt] at hab hbc ⊢
        by_cases hxy : x.toNat < y.toNat
        · by_cases hyz : y.toNat < z.toNat
          · rw [if_pos (Nat.lt_trans hxy hyz)]
          · rw [if_neg hyz] at hbc
            by_cases hzy : z.toNat < y.toNat
            · rw [if_pos hzy] at hbc; cases hbc
            · rw [if_pos (show x.toNat < z.toNat by omega)]
        · rw [if_neg hxy] at hab
          by_cases hyx : y.toNat < x.toNat
          · rw [if_pos hyx] at hab; cases hab
          · rw [if_neg hyx] at hab
            by_cases hyz : y.toNat < z.toNat
            · rw [if_pos (show x.toNat < z.toNat by omega)]
            · rw [if_neg hyz] at hbc
              by_cases hzy : z.toNat < y.toNat
              · rw [if_pos hzy] at hbc; cases hbc
              · rw [if_neg hzy] at hbc
                rw [if_neg (show ¬x.toNat < z.toNat by omega),
                  if_neg (show ¬z.toNat < x.toNat by omega)]
                exact ih hab hbc

theorem stringLt_trans {a b c : String} (h1 : stringLt a b = true)
    (h2 : stringLt b c = true) : stringLt a c = true :=
  charListLt_trans h1 h2

theorem charListLt_eq_of_not_lt {a : List Char} : ∀ {b : List Char},
    charListLt a b = false → charListLt b a = false → a = b := by
  induction a with
  | nil =>
    intro b hab _
    cases b with
    | nil => rfl
    | cons y bs => cases hab
  | cons x as ih =>
    intro b hab hba
    cases b with
    | nil => cases hba
    | cons y bs =>
      simp only [charListLt] at hab hba
      by_cases hxy : x.toNat < y.toNat
      · rw [if_pos hxy] at hab; cases hab
      · by_cases hyx : y.toNat < x.toNat
        · rw [if_pos hyx] at hba; cases hba
        · rw [if_neg hxy, if_neg hyx] at hab
          rw [if_neg hyx, if_neg hxy] at hba
          have hx : x = y :=
            Char.ext (UInt32.ext (show x.toNat = y.toNat by omega))
          subst hx
          rw [ih hab hba]

theorem string_eq_of_not_lt {a b : String} (h1 : stringLt a b = false)
    (h2 : stringLt b a = false) : a = b := by
  cases a with
  | mk da =>
    cases b with
    | mk db =>
      simp only [stringLt] at h1 h2
      exact congrArg String.mk (charListLt_eq_of_not_lt h1 h2)

theorem string_ne_of_lt {a b : String} (h : stringLt a b = true) : a ≠ b := by
  intro hab
  subst hab
  rw [stringLt_irrefl] at h
  cases h

/-- Strict ascending key order between two target-map entries. -/
def keyLt (e f : String × σ) : Prop := stringLt e.1 f.1 = true

theorem mem_btreeInsert_elim {k : String} {v : σ} :
    ∀ {l : List (String × σ)} {x : String × σ}, x ∈ btreeInsert k v l →
      x = (k, v) ∨ x ∈ l := by
  intro l
  induction l with
  | nil =>
    intro x hx
    simp only [btreeInsert] at hx
    exact Or.inl (List.mem_singleton.mp hx)
  | cons hd tl ih =>
    obtain ⟨k', v'⟩ := hd
    intro x hx
    simp only [btreeInsert] at hx
    by_cases h1 : stringLt k k' = true
    · rw [if_pos h1] at hx
      rcases List.mem_cons.mp hx with rfl | hx
      · exact Or.inl rfl
      · exact Or.inr hx
    · rw [if_neg h1] at hx
      by_cases h2 : k = k'
      · rw [if_pos h2] at hx
        rcases List.mem_cons.mp hx with rfl | hx
        · exact Or.inl rfl
        · exact Or.inr (List.mem_cons_of_mem _ hx)
      · rw [if_neg h2] at hx
        rcases List.mem_cons.mp hx with rfl | hx
        · exact Or.inr (List.mem_cons_self _ _)
        · rcases ih hx with h | h
          · exact Or.inl h
          · exact Or.inr (List.mem_cons_of_mem _ h)

theorem btreeInsert_pairwise (k : String) (v : σ)
    {l : List (String × σ)} (h : l.Pairwise keyLt) :
    (btreeInsert k v l).Pairwise keyLt := by
  induction l with
  | nil => simp [btreeInsert]
  | cons hd tl ih =>
    obtain ⟨k', v'⟩ := hd
    rw [List.pairwise_cons] at h
    obtain ⟨hhd, htl⟩ := h
    simp only [btreeInsert]
    by_cases h1 : stringLt k k' = true
    · rw [if_pos h1, List.pairwise_cons]
      refine ⟨?_, List.pairwise_cons.mpr ⟨hhd, htl⟩⟩
      intro f hf
      rcases List.mem_cons.mp hf with rfl | hf
      · exact h1
      · exact stringLt_trans h1 (hhd f hf)
    · rw [if_neg h1]
      by_cases h2 : k = k'
      · rw [if_pos h2, List.pairwise_cons]
        subst h2
        exact ⟨hhd, htl⟩
      · rw [if_neg h2, List.pairwise_cons]
        refine ⟨?_, ih htl⟩
        intro f hf
        rcases mem_btreeInsert_elim hf with rfl | hf
        · have hk'k : stringLt k' k = true := by
            cases h3 : stringLt k' k with
            | true => rfl
            | false =>
              exact absurd (string_eq_of_not_lt
                (Bool.eq_false_iff.mpr h1) h3) h2
          exact hk'k
        · exact hhd f hf

theorem mem_btreeInsert_iff {k : String} {v : σ}
    {l : List (String × σ)} (h : l.Pairwise keyLt) (x : String × σ) :
    x ∈ btreeInsert k v l ↔ x = (k, v) ∨ (x ∈ l ∧ x.1 ≠ k) := by
  induction l with
  | nil => simp [btreeInsert]
  | cons hd tl ih =>
    obtain ⟨k', v'⟩ := hd
    rw [List.pairwise_cons] at h
    obtain ⟨hhd, htl⟩ := h
    have hmemtl_ne : ∀ f ∈ tl, f.1 ≠ k' := by
      intro f hf hfk
      have := hhd f hf
      rw [keyLt, hfk, stringLt_irrefl] at this
      cases this
    simp only [btreeInsert]
    by_cases h1 : stringLt k k' = true
    · rw [if_pos h1]
      have hne : ∀ f, f ∈ (k', v') :: tl → f.1 ≠ k := by
        intro f hf
        rcases List.mem_cons.mp hf with rfl | hf
        · exact fun hc => string_ne_of_lt h1 hc.symm
        · intro hc
          exact string_ne_of_lt (stringLt_trans h1 (hhd f hf)) hc.symm
      constructor
      · intro hx
        rcases List.mem_cons.mp hx with rfl | hx
        · exact Or.inl rfl
        · exact Or.inr ⟨hx, hne _ hx⟩
      · rintro (rfl | ⟨hx, _⟩)
        · exact List.mem_cons_self _ _
        · exact List.mem_cons_of_mem _ hx
    · rw [if_neg h1]
      by_cases h2 : k = k'
      · subst h2
        rw [if_pos rfl]
        constructor
        · intro hx
          rcases List.mem_cons.mp hx with rfl | hx
          · exact Or.inl rfl
          · exact Or.inr ⟨List.mem_cons_of_mem _ hx, hmemtl_ne _ hx⟩
        · rintro (rfl | ⟨hx, hxk⟩)
          · exact List.mem_cons_self _ _
          · rcases List.mem_cons.mp hx with rfl | hx
            · exact absurd rfl hxk
            · exact List.mem_cons_of_mem _ hx
      · rw [if_neg h2]
        have hk'k : stringLt k' k = true := by
          cases h3 : stringLt k' k with
          | true => rfl
          | false =>
            exact absurd (string_eq_of_not_lt
              (Bool.eq_false_iff.mpr h1) h3) h2
        constructor
        · intro hx
          rcases List.mem_cons.mp hx with rfl | hx
          · exact Or.inr ⟨List.mem_cons_self _ _,
              fun hc => string_ne_of_lt hk'k hc⟩
          · rcases (ih htl).mp hx with rfl | ⟨hxl, hxk⟩
            · exact Or.inl rfl
            · exact Or.inr ⟨List.mem_cons_of_mem _ hxl, hxk⟩
        · rintro (rfl | ⟨hx, hxk⟩)
          · exact List.mem_cons_of_mem _ ((ih htl).mpr (Or.inl rfl))
          · rcases List.mem_cons.mp hx with rfl | hx
            · exact List.mem_cons_self _ _
            · exact List.mem_cons_of_mem _
                ((ih htl).mpr (Or.inr ⟨hx, hxk⟩))

theorem foldl_btreeInsert_pairwise (stores : List (String × σ))
    {l : List (String × σ)} (h : l.Pairwise keyLt) :
    (stores.foldl (fun acc e => btreeInsert e.1 e.2 acc) l).Pairwise
      keyLt := by
  induction stores generalizing l with
  | nil => exact h
  | cons hd tl ih => exact ih (btreeInsert_pairwise hd.1 hd.2 h)

theorem mem_foldl_btreeInsert (stores : List (String × σ)) :
    ∀ {l : List (String × σ)}, l.Pairwise keyLt →
    (stores.map Prod.fst).Nodup → ∀ x : String × σ,
    (x ∈ stores.foldl (fun acc e => btreeInsert e.1 e.2 acc) l ↔
      x ∈ stores ∨ (x ∈ l ∧ x.1 ∉ stores.map Prod.fst)) := by
  induction stores with
  | nil =>
    intro l _ _ x
    simp
  | cons hd tl ih =>
    intro l hl hnd x
    obtain ⟨k, v⟩ := hd
    rw [List.map_cons, List.nodup_cons] at hnd
    obtain ⟨hk, hnd'⟩ := hnd
    simp only [List.foldl_cons]
    rw [ih (btreeInsert_pairwise k v hl) hnd' x,
      mem_btreeInsert_iff hl x]
    constructor
    · rintro (hx | ⟨hx | ⟨hxl, hxk⟩, hnotin⟩)
      · exact Or.inl (List.mem_cons_of_mem _ hx)
      · exact Or.inl (by rw [hx]; exact List.mem_cons_self _ _)
      · refine Or.inr ⟨hxl, ?_⟩
        rw [List.map_cons]
        intro hc
        rcases List.mem_cons.mp hc with hc | hc
        · exact hxk hc
        · exact hnotin hc
    · rintro (hx | ⟨hxl, hxk⟩)
      · rcases List.mem_cons.mp hx with rfl | hx
        · exact Or.inr ⟨Or.inl rfl, hk⟩
        · exact Or.inl hx
      · rw [List.map_cons] at hxk
        refine Or.inr ⟨Or.inr ⟨hxl, fun hc => hxk (hc ▸ List.mem_cons_self _ _)⟩,
          fun hc => hxk (List.mem_cons_of_mem _ hc)⟩

/-! ### Claim theorems: the mirror target collection -/

/-- A `MultiStore` (store type `Nat`) whose registry binds the name
`"primary"` to a secondary store distinct from the primary, built through
`MultiStore::new` and `MultiStore::add_stores`. -/
def primaryNamedSecondary : MultiStore Nat :=
  (MultiStore.new 0).add_stores [("primary", 1)]

/-- C3 counterexample: when a secondary store is registered under the name
`"primary"`, `mirror_stores_from_primary` pairs `"primary"` with that
secondary store and the MultiStore's primary store appears nowhere in the
target collection, contradicting the claim that the targets are
`"primary" ↦ primary` together with every registered pair. -/
theorem mirror_from_primary_drops_shadowed_primary :
    primaryNamedSecondary.primary = 0 ∧
    ("primary", 1) ∈ primaryNamedSecondary.stores ∧
    mirror_stores_from_primary primaryNamedSecondary = [("primary", 1)] ∧
    ("primary", 0) ∉ mirror_stores_from_primary primaryNamedSecondary := by
  refine ⟨rfl, ?_, rfl, ?_⟩
  · decide
  · decide

/-- C3 (amended): assuming the registry's names are unique (a `HashMap`
invariant), the targets of `mirror_stores_from_primary` are in strictly
ascending name order and consist of every registered `(name, store)` pair
plus `"primary"` paired with the primary store — the latter only when no
secondary is registered under the name `"primary"` (such a secondary
replaces the primary in the `BTreeMap`). -/
theorem mirror_from_primary_targets (m : MultiStore σ)
    (hnd : (m.stores.map Prod.fst).Nodup) :
    (mirror_stores_from_primary m).Pairwise keyLt ∧
    ∀ nm w, ((nm, w) ∈ mirror_stores_from_primary m ↔
      (nm, w) ∈ m.stores ∨
        (nm = "primary" ∧ w = m.primary ∧
          "primary" ∉ m.stores.map Prod.fst)) := by
  constructor
  · exact foldl_btreeInsert_pairwise m.stores (List.pairwise_singleton _ _)
  · intro nm w
    rw [mirror_stores_from_primary,
      mem_foldl_btreeInsert m.stores (List.pairwise_singleton _ _) hnd]
    simp only [List.mem_singleton, Prod.mk.injEq]
    constructor
    · rintro (hx | ⟨⟨rfl, rfl⟩, hnotin⟩)
      · exact Or.inl hx
      · exact Or.inr ⟨rfl, rfl, hnotin⟩
    · rintro (hx | ⟨rfl, rfl, hnotin⟩)
      · exact Or.inl hx
      · exact Or.inr ⟨⟨rfl, rfl⟩, hnotin⟩

/-- C3 amended-claim witness: on a registry `{store-2, store-1}` the mirror
targets contain `("store-1", 1)`, and the target list is the sorted
`[primary, store-1, store-2]`. -/
theorem mirror_from_primary_targets_witness :
    ("store-1", 1) ∈ mirror_stores_from_primary
      ((MultiStore.new 0).add_stores [("store-2", 2), ("store-1", 1)]) ∧
    mirror_stores_from_primary
      ((MultiStore.new 0).add_stores [("store-2", 2), ("store-1", 1)]) =
      [("primary", 0), ("store-1", 1), ("store-2", 2)] :=
  ⟨((mirror_from_primary_targets
      ((MultiStore.new 0).add_stores [("store-2", 2), ("store-1", 1)])
      (by decide)).2 "store-1" 1).mpr (Or.inl (by decide)),
    by decide⟩

end ActiveStorage
